import Mathlib

/-!
Verification development for the `MerkleTree` class of `src/merkle_tree.ts`
and its snapshot utilities (`src/utils`).

Buffers are modelled as `List Nat` (one entry per byte).  The SHA-256
hashing collaborator (`sha256_hasher.ts`, not part of the sources here) is
kept abstract: every definition takes the two primitives
`hash : Bytes → Bytes` (64-byte leaf → 32-byte digest) and
`compress : Bytes → Bytes → Bytes` (two 32-byte digests → one) as
parameters, so the theorems hold for an arbitrary hasher.

JavaScript arrays can contain holes (`leaves[5] = v` on a length-0 array
creates indices 0..4 as holes; `Array.prototype.map` skips holes), and a
hole read yields `undefined`; applying the hasher to `undefined` is a
runtime `TypeError`.  Node lists are therefore modelled as
`List (Option Bytes)`: `none` is a hole / `undefined`, and a compression
touching `none` produces `none`, which propagates to the root and models
the thrown `TypeError`.
-/

namespace MerkleSpec

abbrev Bytes := List Nat

/-- `Sha256Hasher.compress` lifted to possibly-`undefined` operands:
`undefined` on either side is a runtime error, modelled as `none`. -/
def compressO (compress : Bytes → Bytes → Bytes) : Option Bytes → Option Bytes → Option Bytes
  | some a, some b => some (compress a b)
  | _, _ => none

/-- The 64-byte all-zero leaf `Buffer.alloc(LEAF_BYTES, 0)`. -/
def zeroLeaf : Bytes := List.replicate 64 0

/-- Loop body of `createZeroHashes`: starting from `current`, push the
current hash and self-compress `n` times.  `createZeroHashesAux c h n`
returns a list of length `n+1`. -/
def createZeroHashesAux (compress : Bytes → Bytes → Bytes) (current : Bytes) : Nat → List Bytes
  | 0 => [current]
  | n + 1 => current :: createZeroHashesAux compress (compress current current) n

/-- `createZeroHashes` of `src/merkle_tree.ts`: the zero-hash table
`[hash(zeroLeaf), compress(zh0,zh0), ...]` of length `depth+1`. -/
def createZeroHashes (hash : Bytes → Bytes) (compress : Bytes → Bytes → Bytes)
    (depth : Nat) : List Bytes :=
  createZeroHashesAux compress (hash zeroLeaf) depth

/-- The `k`-fold self-compression of `cur`; `selfIter c (hash zeroLeaf) k`
is the root of an all-empty subtree of height `k`, i.e. entry `k` of the
zero-hash table. -/
def selfIter (compress : Bytes → Bytes → Bytes) (cur : Bytes) : Nat → Bytes
  | 0 => cur
  | k + 1 => compress (selfIter compress cur k) (selfIter compress cur k)

/-- The inner loop of `createTreeObject`: pair consecutive nodes of a
level; a missing right partner (`i + 1 < layerSize` fails) is replaced by
`this.zeroHashes[level]`, here passed in as `zh : Option Bytes`
(`List.get?`-style, since `this.zeroHashes` may itself be too short, in
which case the lookup is `undefined`). -/
def buildLevel (compress : Bytes → Bytes → Bytes) (zh : Option Bytes) :
    List (Option Bytes) → List (Option Bytes)
  | [] => []
  | [a] => [compressO compress a zh]
  | a :: b :: rest => compressO compress a b :: buildLevel compress zh rest

/-- The level loop of `createTreeObject`: starting from level `lvl` with
nodes `cur`, build `n` more levels, the zero-hash substitute for level `l`
being `zhs.get? l`.  Returns the list of levels, lowest first. -/
def buildLevelsAux (compress : Bytes → Bytes → Bytes) (zhs : List Bytes) :
    Nat → Nat → List (Option Bytes) → List (List (Option Bytes))
  | 0, _, cur => [cur]
  | n + 1, lvl, cur =>
      cur :: buildLevelsAux compress zhs n (lvl + 1) (buildLevel compress (zhs.get? lvl) cur)

/-- `createTreeObject` of `src/merkle_tree.ts` (for `depth ≥ 1`): level 0
is the leaves hashed element-wise (`map` skips holes), each next level
pairs the previous one.  When the leaf array is empty, the code falls back
to using the zero-hash table itself as the leaf array
(`const leaves = this.leaves.length ? this.leaves : this.zeroHashes`). -/
def createTreeLevels (hash : Bytes → Bytes) (compress : Bytes → Bytes → Bytes)
    (depth : Nat) (zhs : List Bytes) (leaves : List (Option Bytes)) :
    List (List (Option Bytes)) :=
  let lvs := if leaves.length = 0 then zhs.map some else leaves
  buildLevelsAux compress zhs depth 0 (lvs.map (Option.map hash))

/-- `this.treeObject[this.depth][0]`: `none` when the level or the entry is
missing, or when an error propagated into it. -/
def rootOfLevels (depth : Nat) (levels : List (List (Option Bytes))) : Option Bytes :=
  ((levels.get? depth).bind (fun l => l.get? 0)).join

/-- The in-memory state of a `MerkleTree` instance (the `db`/`name` fields
are not part of the computational state). -/
structure TreeState where
  depth : Nat
  root : Bytes
  leaves : List (Option Bytes)
  zeroHashes : List Bytes
  deriving DecidableEq, Repr, Inhabited

/-- The `MerkleTree` constructor: depth guard, then either install the
given root (restoration; `leaves`/`zeroHashes` stay empty) or compute the
zero-hash table and set `root = zeroHashes[depth]`, keeping the optional
`leaves` argument. -/
def constructTree (hash : Bytes → Bytes) (compress : Bytes → Bytes → Bytes)
    (depth : Int) (root? : Option Bytes) (leaves : List Bytes) :
    Except String TreeState :=
  if 1 ≤ depth ∧ depth ≤ 32 then
    let d := depth.toNat
    match root? with
    | some r => .ok ⟨d, r, [], []⟩
    | none =>
        let zhs := createZeroHashes hash compress d
        .ok ⟨d, zhs.getD d [], leaves.map some, zhs⟩
  else .error "Bad depth"

/-- JavaScript `this.leaves[index] = value`: a negative index sets a
non-index property (the array is unchanged for all array operations); an
index beyond the length grows the array, creating holes in between. -/
def setLeaf (leaves : List (Option Bytes)) (index : Int) (value : Bytes) :
    List (Option Bytes) :=
  if index < 0 then leaves
  else
    let i := index.toNat
    if i < leaves.length then leaves.set i (some value)
    else leaves ++ List.replicate (i - leaves.length) none ++ [some value]

/-- `updateElement` (via `appendTreeObject` / `reCreateTree`): write the
leaf, rebuild the whole tree, read the new root.  Returns the value
`updateElement` resolves with (`none` models the thrown `TypeError` when
the hasher met a hole) together with the resulting in-memory state (on a
throw, the leaf write has already happened but the root is unchanged). -/
def updateElement (hash : Bytes → Bytes) (compress : Bytes → Bytes → Bytes)
    (st : TreeState) (index : Int) (value : Bytes) : Option Bytes × TreeState :=
  let lvs := setLeaf st.leaves index value
  let r? := rootOfLevels st.depth (createTreeLevels hash compress st.depth st.zeroHashes lvs)
  (r?, { st with leaves := lvs, root := r?.getD st.root })

/-- `getHashPath` of `src/merkle_tree.ts`: the body is the stub
`return new HashPath()`.  Modelled from the spec: `hash_path.ts` is not
among the sources; a `HashPath` is an ordered list of `(left, right)`
sibling pairs and its no-argument constructor holds no pairs. -/
def getHashPath (_st : TreeState) (_index : Int) : List (Bytes × Bytes) := []

/-! ### Metadata persistence (`writeMetaData` / static `new`) -/

/-- `data.writeUInt32LE(n, _)`: the four little-endian bytes of `n`. -/
def toLE4 (n : Nat) : Bytes :=
  [n % 256, n / 256 % 256, n / 65536 % 256, n / 16777216 % 256]

/-- `meta.readUInt32LE(32)`: recompose the four bytes at offsets 32..35. -/
def readUInt32LEAt32 (data : Bytes) : Nat :=
  (data.drop 32).getD 0 0 + 256 * (data.drop 32).getD 1 0 +
    65536 * (data.drop 32).getD 2 0 + 16777216 * (data.drop 32).getD 3 0

/-- `writeMetaData`: a zeroed 40-byte buffer, the root copied in at
offset 0, the depth written little-endian at offset 32 (faithful for
roots of at most 40 bytes; the class invariant keeps them at 32). -/
def writeMetaData (root : Bytes) (depth : Nat) : Bytes :=
  let d0 := root.take 40 ++ List.replicate (40 - min root.length 40) 0
  d0.take 32 ++ toLE4 depth ++ d0.drop 36

/-- The static `MerkleTree.new`: restore `(root, depth)` from the metadata
record under `name` when present, otherwise construct fresh (the fresh
branch also persists its metadata, a store effect not modelled here). -/
def newTree (hash : Bytes → Bytes) (compress : Bytes → Bytes → Bytes)
    (store : String → Option Bytes) (name : String) (depth : Int) :
    Except String TreeState :=
  match store name with
  | some meta => constructTree hash compress (Int.ofNat (readUInt32LEAt32 meta)) (some (meta.take 32)) []
  | none => constructTree hash compress depth none []

/-! ### Reference materialization (from the spec's words)

`refLevel`/`refRoot` follow §4.2 of the specification: pad the leaf
sequence with zero leaves to the full width `2^depth`, hash each leaf, and
compress pairwise `depth` times.  They exist to be compared with
`createTreeLevels`, the definition taken from the source. -/

/-- One spec-side level step: compress disjoint consecutive pairs. -/
def pairUp (compress : Bytes → Bytes → Bytes) : List Bytes → List Bytes
  | [] => []
  | [a] => [a]
  | a :: b :: rest => compress a b :: pairUp compress rest

/-- Level `k` of the spec's reference materialization over zero-padded
leaves. -/
def refLevel (hash : Bytes → Bytes) (compress : Bytes → Bytes → Bytes)
    (depth : Nat) (leaves : List Bytes) : Nat → List Bytes
  | 0 => (leaves ++ List.replicate (2 ^ depth - leaves.length) zeroLeaf).map hash
  | k + 1 => pairUp compress (refLevel hash compress depth leaves k)

/-- The root of the spec's reference materialization. -/
def refRoot (hash : Bytes → Bytes) (compress : Bytes → Bytes → Bytes)
    (depth : Nat) (leaves : List Bytes) : Bytes :=
  (refLevel hash compress depth leaves depth).headD []

/-! ### Dense-level infrastructure

`createTreeLevels` runs over `Option Bytes` nodes (holes possible).  For
hole-free leaf arrays the computation is mirrored by the dense functions
below, which the lemmas connect to both `createTreeLevels` and
`refLevel`. -/

/-- `buildLevel` restricted to hole-free levels with an in-range zero-hash
substitute. -/
def dBuildLevel (compress : Bytes → Bytes → Bytes) (z : Bytes) : List Bytes → List Bytes
  | [] => []
  | [a] => [compress a z]
  | a :: b :: rest => compress a b :: dBuildLevel compress z rest

/-- The level `k` steps above `cur`, pairing with `zhs.get? (lvl + j)` as
the substitute at step `j` (mirrors the level loop of
`createTreeObject`). -/
def shiftIter (compress : Bytes → Bytes → Bytes) (zhs : List Bytes) (lvl : Nat)
    (cur : List (Option Bytes)) : Nat → List (Option Bytes)
  | 0 => cur
  | k + 1 => buildLevel compress (zhs.get? (lvl + k)) (shiftIter compress zhs lvl cur k)

/-- Dense mirror of `shiftIter`. -/
def dShift (compress : Bytes → Bytes → Bytes) (zt : List Bytes) (lvl : Nat)
    (cur : List Bytes) : Nat → List Bytes
  | 0 => cur
  | k + 1 => dBuildLevel compress (zt.getD (lvl + k) []) (dShift compress zt lvl cur k)

/-! ### Toy hashers, for concrete evaluation -/

/-- A toy stand-in for `Sha256Hasher.hash`, used on concrete inputs. -/
def toyHash (l : Bytes) : Bytes := [l.length]

/-- A toy stand-in for `Sha256Hasher.compress`, used on concrete inputs. -/
def toyCompress (a b : Bytes) : Bytes := a ++ b

/-- A toy hasher with 32-byte output. -/
def toyHash32 (l : Bytes) : Bytes := List.replicate 32 (l.length % 256)

/-- A toy compressor with 32-byte output. -/
def toyCompress32 (a b : Bytes) : Bytes :=
  List.replicate 32 ((a.headD 0 + 2 * b.headD 0 + 1) % 256)

/-- The fresh depth-2 tree over the toy hasher. -/
def toyFresh2 : TreeState :=
  match constructTree toyHash toyCompress 2 none [] with
  | .ok st => st
  | .error _ => default

/-! ### Snapshot serialization (`saveTreeSnapshot` / `restoreTree` /
`bufferReviver` of `src/utils/index.ts`)

`JSON.parse(data, reviver)` first parses `data` into plain JSON values and
then applies the reviver to every value, innermost first.  `JVal` is the
space of such values, extended with a constructor for Node `Buffer`s,
which parsing never produces but the reviver introduces.
`JSON.stringify ∘ JSON.parse` is the identity on the encodings involved
here, so the string stage of the round trip is modelled as the identity on
`JVal`. -/

inductive JVal where
  | jnull : JVal
  | jbool : Bool → JVal
  | jnum : Nat → JVal
  | jstr : String → JVal
  | jarr : List JVal → JVal
  | jobj : List (String × JVal) → JVal
  | jbuf : List Nat → JVal
  deriving Repr

/-- JavaScript property lookup on a parsed object (`"k" in v` / `v.k`). -/
def field? (k : String) : List (String × JVal) → Option JVal
  | [] => none
  | (k', v) :: rest => if k' = k then some v else field? k rest

/-- `new Buffer(array)` coerces each element to a byte: a number is taken
modulo 256, anything else becomes 0. -/
def jvalToByte : JVal → Nat
  | .jnum n => n % 256
  | _ => 0

/-- `bufferReviver` of `src/utils/index.ts`, applied to one
already-revived value: a non-null object with a field `type` whose value
is the string `"Buffer"` and a field `data` whose value is an array
becomes a `Buffer` of the array's elements; every other value is returned
unchanged. -/
def bufferReviver : JVal → JVal
  | .jobj fields =>
      match field? "type" fields, field? "data" fields with
      | some (.jstr t), some (.jarr xs) =>
          if t = "Buffer" then .jbuf (xs.map jvalToByte) else .jobj fields
      | _, _ => .jobj fields
  | v => v

mutual

/-- `JSON.parse(·, bufferReviver)` after plain parsing: apply the reviver
to every value, innermost first. -/
def revive : JVal → JVal
  | .jarr xs => bufferReviver (.jarr (reviveList xs))
  | .jobj fs => bufferReviver (.jobj (reviveFields fs))
  | v => bufferReviver v

def reviveList : List JVal → List JVal
  | [] => []
  | v :: vs => revive v :: reviveList vs

def reviveFields : List (String × JVal) → List (String × JVal)
  | [] => []
  | (k, v) :: fs => (k, revive v) :: reviveFields fs

end

/-- `JSON.stringify` of a Node `Buffer` (via `Buffer.prototype.toJSON`):
the object `{"type": "Buffer", "data": [...bytes]}`. -/
def bufToJson (b : List Nat) : JVal :=
  .jobj [("type", .jstr "Buffer"), ("data", .jarr (b.map .jnum))]

/-- The fields of `JSON.stringify(tree)` for an `ITree` whose levels are
arrays of `Buffer`s: integer keys `i, i+1, ...` in order, each value the
serialized level. -/
def treeFieldsAux (i : Nat) : List (List (List Nat)) → List (String × JVal)
  | [] => []
  | lvl :: rest => (toString i, .jarr (lvl.map bufToJson)) :: treeFieldsAux (i + 1) rest

/-- `JSON.parse(JSON.stringify(tree))` (no reviver yet) for an `ITree`
whose every node is a `Buffer`. -/
def treeToJson (t : List (List (List Nat))) : JVal :=
  .jobj (treeFieldsAux 0 t)

/-- The same level map with every serialized buffer replaced by the
reconstructed `Buffer`: the expected result of restoration. -/
def treeRevivedAux (i : Nat) : List (List (List Nat)) → List (String × JVal)
  | [] => []
  | lvl :: rest => (toString i, .jarr (lvl.map .jbuf)) :: treeRevivedAux (i + 1) rest

/-- The expected restored level map. -/
def treeRevived (t : List (List (List Nat))) : JVal :=
  .jobj (treeRevivedAux 0 t)

/-- `saveTreeSnapshot`: serialize the tree and store it under the fixed
key (the store is modelled as the single `treeSnap` slot). -/
def saveTreeSnapshot (t : List (List (List Nat))) : Option JVal :=
  some (treeToJson t)

/-- `restoreTree`: parse the stored snapshot with `bufferReviver`; a
missing snapshot yields the empty object (the `catch` branch returns the
initial `{}`). -/
def restoreTree : Option JVal → JVal
  | some j => revive j
  | none => .jobj []

/-- A value of the shape `bufferReviver` rewrites: an object whose `type`
field is the string `"Buffer"` and whose `data` field is an array. -/
def bufShaped (v : JVal) : Prop :=
  ∃ fields xs, v = .jobj fields ∧ field? "type" fields = some (.jstr "Buffer") ∧
    field? "data" fields = some (.jarr xs)

/-! ## Supporting lemmas -/

theorem createZeroHashesAux_length (c : Bytes → Bytes → Bytes) :
    ∀ (n : Nat) (cur : Bytes), (createZeroHashesAux c cur n).length = n + 1
  | 0, _ => rfl
  | n + 1, cur => by
      simp [createZeroHashesAux, createZeroHashesAux_length c n]

theorem selfIter_shift (c : Bytes → Bytes → Bytes) (cur : Bytes) :
    ∀ j, selfIter c (c cur cur) j = selfIter c cur (j + 1)
  | 0 => rfl
  | j + 1 => by
      simp only [selfIter, selfIter_shift c cur j]

theorem createZeroHashesAux_getD (c : Bytes → Bytes → Bytes) :
    ∀ (n k : Nat) (cur : Bytes), k ≤ n →
      (createZeroHashesAux c cur n).getD k [] = selfIter c cur k
  | 0, 0, _, _ => rfl
  | n + 1, 0, _, _ => rfl
  | 0, k + 1, _, h => absurd h (by omega)
  | n + 1, k + 1, cur, h => by
      show (createZeroHashesAux c (c cur cur) n).getD k [] = _
      rw [createZeroHashesAux_getD c n k (c cur cur) (by omega), selfIter_shift]

theorem createZeroHashesAux_mem_length (c : Bytes → Bytes → Bytes)
    (hc : ∀ a b, (c a b).length = 32) :
    ∀ (n : Nat) (cur : Bytes), cur.length = 32 →
      ∀ x ∈ createZeroHashesAux c cur n, x.length = 32
  | 0, cur, hcur, x, hx => by
      simp [createZeroHashesAux] at hx; simpa [hx] using hcur
  | n + 1, cur, hcur, x, hx => by
      simp only [createZeroHashesAux, List.mem_cons] at hx
      rcases hx with rfl | hx
      · exact hcur
      · exact createZeroHashesAux_mem_length c hc n (c cur cur) (hc cur cur) x hx

/-! ## Claims -/

/-- C6: for every depth in `[1, 32]`, the zero-hash table is an array of
length `depth+1` of 32-byte hashes, entry 0 is the hash of the 64-zero-byte
leaf, and entry `l+1` is the self-compression of entry `l` for every
`l < depth` (`createZeroHashes` is a plain Lean function of the depth and
the two hash primitives, hence pure, deterministic and total). -/
theorem createZeroHashes_spec (hash : Bytes → Bytes) (compress : Bytes → Bytes → Bytes)
    (depth : Nat) (_hd1 : 1 ≤ depth) (_hd2 : depth ≤ 32)
    (hh : ∀ l, (hash l).length = 32) (hc : ∀ a b, (compress a b).length = 32) :
    (createZeroHashes hash compress depth).length = depth + 1 ∧
    (createZeroHashes hash compress depth).getD 0 [] = hash zeroLeaf ∧
    (∀ l, l < depth →
      (createZeroHashes hash compress depth).getD (l + 1) [] =
        compress ((createZeroHashes hash compress depth).getD l [])
          ((createZeroHashes hash compress depth).getD l [])) ∧
    (∀ x ∈ createZeroHashes hash compress depth, x.length = 32) := by
  refine ⟨createZeroHashesAux_length compress depth _, ?_, ?_, ?_⟩
  · rw [createZeroHashes, createZeroHashesAux_getD compress depth 0 _ (Nat.zero_le _)]
    rfl
  · intro l hl
    rw [createZeroHashes, createZeroHashesAux_getD compress depth (l + 1) _ (by omega),
        createZeroHashesAux_getD compress depth l _ (by omega)]
    rfl
  · exact createZeroHashesAux_mem_length compress hc depth _ (hh zeroLeaf)

/-- Witness for C6 at `depth = 2` over the 32-byte toy hasher. -/
theorem createZeroHashes_spec_witness :
    (createZeroHashes toyHash32 toyCompress32 2).length = 2 + 1 ∧
    (createZeroHashes toyHash32 toyCompress32 2).getD 0 [] = toyHash32 zeroLeaf ∧
    (createZeroHashes toyHash32 toyCompress32 2).getD 2 [] =
      toyCompress32 ((createZeroHashes toyHash32 toyCompress32 2).getD 1 [])
        ((createZeroHashes toyHash32 toyCompress32 2).getD 1 []) := by
  have h := createZeroHashes_spec toyHash32 toyCompress32 2 (by decide) (by decide)
    (fun l => by simp [toyHash32]) (fun a b => by simp [toyCompress32])
  exact ⟨h.1, h.2.1, h.2.2.1 1 (by decide)⟩

/-- C9: construction succeeds exactly when the depth lies in `[1, 32]`;
outside that range the constructor throws `Bad depth` and no instance is
produced. -/
theorem constructTree_depth_guard (hash : Bytes → Bytes) (compress : Bytes → Bytes → Bytes)
    (depth : Int) (root? : Option Bytes) (leaves : List Bytes) :
    ((∃ st, constructTree hash compress depth root? leaves = .ok st) ↔
      (1 ≤ depth ∧ depth ≤ 32)) ∧
    (constructTree hash compress depth root? leaves = .error "Bad depth" ↔
      ¬(1 ≤ depth ∧ depth ≤ 32)) := by
  by_cases h : 1 ≤ depth ∧ depth ≤ 32
  · cases root? <;> simp [constructTree, h]
  · cases root? <;> simp [constructTree, h]

/-- C1 (code bug): `getHashPath` is the stub `return new HashPath()`; it
returns the empty list of sibling pairs for every tree state and index, so
at the failing input (the fresh depth-2 tree, index 0) it does not have
`depth` pairs, and compressing it cannot reach the root. -/
theorem getHashPath_is_stub :
    (∀ (st : TreeState) (index : Int), getHashPath st index = []) ∧
    (getHashPath toyFresh2 0).length ≠ toyFresh2.depth := by
  exact ⟨fun _ _ => rfl, by decide⟩

/-- C3 (code bug): `updateElement` performs no index or leaf-size
validation.  On the fresh depth-2 toy tree, updating index 0 with a 3-byte
value succeeds (no `InvalidLeafSize` error) and changes the root; updating
index `-1` also succeeds (no `OutOfRange` error) and changes the root (the
leaf array stays empty, so the materializer runs on the zero-hash table as
leaves); and `getHashPath(2^depth) = getHashPath(4)` returns the empty
stub path rather than failing with `OutOfRange`. -/
theorem updateElement_no_validation :
    (updateElement toyHash toyCompress toyFresh2 0 (List.replicate 3 1)).1 =
      some [3, 64, 64, 64] ∧
    (updateElement toyHash toyCompress toyFresh2 0 (List.replicate 3 1)).2.root ≠
      toyFresh2.root ∧
    (updateElement toyHash toyCompress toyFresh2 (-1) (List.replicate 64 7)).1.isSome = true ∧
    (updateElement toyHash toyCompress toyFresh2 (-1) (List.replicate 64 7)).2.root ≠
      toyFresh2.root ∧
    getHashPath toyFresh2 4 = [] := by
  decide

/-- C5 (code bug): on the fresh depth-2 toy tree, `updateElement(2, v)`
grows the leaf array with JavaScript holes (`[hole, hole, v]`), not with
zero-valued leaves; the materializer's hasher is then applied to
`undefined` (a runtime `TypeError`, modelled as `none`), so no root is
produced at all — in particular not the root of the zero-filled reference
materialization, and the stored root is left stale. -/
theorem updateElement_gap_is_hole :
    (updateElement toyHash toyCompress toyFresh2 2 (List.replicate 64 9)).1 = none ∧
    (updateElement toyHash toyCompress toyFresh2 2 (List.replicate 64 9)).2.leaves =
      [none, none, some (List.replicate 64 9)] ∧
    (updateElement toyHash toyCompress toyFresh2 2 (List.replicate 64 9)).2.root =
      toyFresh2.root ∧
    (updateElement toyHash toyCompress toyFresh2 2 (List.replicate 64 9)).1 ≠
      some (refRoot toyHash toyCompress 2 [zeroLeaf, zeroLeaf, List.replicate 64 9]) := by
  decide

/-- C4 counterexample: in the freshly-constructed (reachable) state the
root is `zeroHashes[depth]`, but recomputing the whole tree from the
current (empty) in-memory leaf sequence with the code's materializer does
not reproduce it: the materializer substitutes the zero-hash table itself
for the empty leaf array and yields a different root. -/
theorem fresh_state_recompute_drifts :
    rootOfLevels toyFresh2.depth
      (createTreeLevels toyHash toyCompress toyFresh2.depth toyFresh2.zeroHashes
        toyFresh2.leaves) ≠ some toyFresh2.root := by
  decide

/-- C4 (amended): in every state reached by a successful `updateElement`
call, the root field equals the level-`depth` node of a full
materialization of the current in-memory leaves — recomputation cannot
drift, because the update itself is a full recomputation. -/
theorem root_tracks_full_recompute (hash : Bytes → Bytes) (compress : Bytes → Bytes → Bytes)
    (st : TreeState) (index : Int) (value : Bytes) (st' : TreeState) (r : Bytes)
    (hupd : updateElement hash compress st index value = (some r, st')) :
    some st'.root =
      rootOfLevels st'.depth
        (createTreeLevels hash compress st'.depth st'.zeroHashes st'.leaves) := by
  cases hr : rootOfLevels st.depth
      (createTreeLevels hash compress st.depth st.zeroHashes (setLeaf st.leaves index value)) with
  | none =>
      simp [updateElement, hr] at hupd
  | some r0 =>
      simp only [updateElement, hr] at hupd
      obtain ⟨h1, h2⟩ := Prod.mk.injEq .. ▸ hupd
      subst h2
      simpa using hr.symm

/-- Witness for C4 (amended): the update of leaf 0 on the fresh depth-2
toy tree. -/
theorem root_tracks_full_recompute_witness :
    some (TreeState.mk 2 [64, 64, 64, 64] [some (List.replicate 64 5)]
        [[64], [64, 64], [64, 64, 64, 64]]).root =
      rootOfLevels 2 (createTreeLevels toyHash toyCompress 2
        [[64], [64, 64], [64, 64, 64, 64]] [some (List.replicate 64 5)]) :=
  root_tracks_full_recompute toyHash toyCompress toyFresh2 0 (List.replicate 64 5)
    (TreeState.mk 2 [64, 64, 64, 64] [some (List.replicate 64 5)]
      [[64], [64, 64], [64, 64, 64, 64]]) [64, 64, 64, 64] (by decide)

/-- C7 counterexample: invoking the tree materializer on an empty leaf
sequence does not yield `zeroHashes[depth]`: the code substitutes the
zero-hash table itself for the leaves (`this.leaves.length ? this.leaves :
this.zeroHashes`) and re-hashes its entries, producing a different root. -/
theorem empty_materializer_root_differs :
    rootOfLevels 2
      (createTreeLevels toyHash toyCompress 2 (createZeroHashes toyHash toyCompress 2) [])
      ≠ some ((createZeroHashes toyHash toyCompress 2).getD 2 []) := by
  decide

/-- C7 (amended): for every depth in `[1, 32]`, a tree built from an empty
leaf set gets its root from the construction-time degenerate case, which
sets it to `zeroHashes[depth]` directly, bypassing the materializer (which
would not produce that value, see the counterexample). -/
theorem fresh_root_is_zero_hash (hash : Bytes → Bytes) (compress : Bytes → Bytes → Bytes)
    (depth : Int) (leaves : List Bytes) (st : TreeState)
    (hok : constructTree hash compress depth none leaves = .ok st) :
    st.root = (createZeroHashes hash compress st.depth).getD st.depth [] ∧
    st.root = st.zeroHashes.getD st.depth [] ∧
    st.depth = depth.toNat := by
  by_cases h : 1 ≤ depth ∧ depth ≤ 32
  · simp only [constructTree, if_pos h, Except.ok.injEq] at hok
    subst hok
    exact ⟨rfl, rfl, rfl⟩
  · simp [constructTree, if_neg h] at hok

/-- Witness for C7 (amended): fresh construction at depth 2 over the toy
hasher. -/
theorem fresh_root_is_zero_hash_witness :
    toyFresh2.root = (createZeroHashes toyHash toyCompress toyFresh2.depth).getD
        toyFresh2.depth [] ∧
    toyFresh2.root = toyFresh2.zeroHashes.getD toyFresh2.depth [] ∧
    toyFresh2.depth = (2 : Int).toNat :=
  fresh_root_is_zero_hash toyHash toyCompress 2 [] toyFresh2 rfl

/-- C8: the metadata record is exactly 40 bytes — the 32-byte root at
offset 0, the depth as 4 little-endian bytes at offset 32 (the last 4
bytes are the buffer's zero fill) — and opening the tree again against a
store holding that record under the tree's name restores a state with the
persisted root and depth (the caller-supplied depth argument is
overridden). -/
theorem metadata_roundtrip (hash : Bytes → Bytes) (compress : Bytes → Bytes → Bytes)
    (name : String) (depthArg : Int) (root : Bytes) (depth : Nat)
    (hr : root.length = 32) (hd1 : 1 ≤ depth) (hd2 : depth ≤ 32) :
    (writeMetaData root depth).length = 40 ∧
    (writeMetaData root depth).take 32 = root ∧
    (writeMetaData root depth).drop 32 = toLE4 depth ++ [0, 0, 0, 0] ∧
    readUInt32LEAt32 (writeMetaData root depth) = depth ∧
    newTree hash compress
        (fun n => if n = name then some (writeMetaData root depth) else none) name depthArg =
      .ok ⟨depth, root, [], []⟩ := by
  have h1 : root.take 40 = root := List.take_of_length_le (by omega)
  have h2 : 40 - min root.length 40 = 8 := by omega
  have h3 : (root ++ List.replicate 8 0).drop 36 = [0, 0, 0, 0] := by
    rw [List.drop_append_eq_append_drop, List.drop_eq_nil_of_le (by omega), hr]
    decide
  have h4 : (root ++ List.replicate 8 0).take 32 = root := by
    rw [List.take_append_of_le_length (by omega), List.take_of_length_le (by omega)]
  have hmeta : writeMetaData root depth = root ++ (toLE4 depth ++ [0, 0, 0, 0]) := by
    simp only [writeMetaData]
    rw [h1, h2, h3, h4, List.append_assoc]
  have htake : (writeMetaData root depth).take 32 = root := by
    rw [hmeta, List.take_append_of_le_length (by omega), List.take_of_length_le (by omega)]
  have hdrop : (writeMetaData root depth).drop 32 = toLE4 depth ++ [0, 0, 0, 0] := by
    rw [hmeta, List.drop_append_eq_append_drop, List.drop_eq_nil_of_le (by omega), hr]
    simp
  have hread : readUInt32LEAt32 (writeMetaData root depth) = depth := by
    rw [readUInt32LEAt32, hdrop]
    simp [toLE4, List.getD]
    omega
  refine ⟨?_, htake, hdrop, hread, ?_⟩
  · rw [hmeta]
    simp [toLE4, hr]
  · have c1 : (1 : Int) ≤ Int.ofNat depth := by
      rw [show (1 : Int) = Int.ofNat 1 from rfl]
      exact Int.ofNat_le.mpr hd1
    have c2 : Int.ofNat depth ≤ 32 := by
      rw [show (32 : Int) = Int.ofNat 32 from rfl]
      exact Int.ofNat_le.mpr hd2
    have hconstr : constructTree hash compress (Int.ofNat depth) (some root) [] =
        .ok ⟨depth, root, [], []⟩ := by
      rw [constructTree, if_pos ⟨c1, c2⟩]
      simp
    simp only [newTree]
    rw [if_pos trivial]
    show constructTree hash compress (Int.ofNat (readUInt32LEAt32 (writeMetaData root depth)))
        (some ((writeMetaData root depth).take 32)) [] =
      .ok ⟨depth, root, [], []⟩
    rw [hread, htake, hconstr]

/-- Witness for C8: a 32-byte root of sevens persisted at depth 3 under
the name `t` and restored (the caller-supplied depth 5 is overridden). -/
theorem metadata_roundtrip_witness :
    (writeMetaData (List.replicate 32 7) 3).length = 40 ∧
    readUInt32LEAt32 (writeMetaData (List.replicate 32 7) 3) = 3 ∧
    newTree toyHash toyCompress
        (fun n => if n = "t" then some (writeMetaData (List.replicate 32 7) 3) else none)
        "t" 5 =
      .ok ⟨3, List.replicate 32 7, [], []⟩ := by
  have h := metadata_roundtrip toyHash toyCompress "t" 5 (List.replicate 32 7) 3
    (by decide) (by decide) (by decide)
  exact ⟨h.1, h.2.2.2.1, h.2.2.2.2⟩

theorem reviveList_eq_map : ∀ xs : List JVal, reviveList xs = xs.map revive
  | [] => rfl
  | v :: vs => by rw [reviveList, List.map_cons, reviveList_eq_map vs]

theorem reviveFields_eq_map :
    ∀ fs : List (String × JVal), reviveFields fs = fs.map (fun kv => (kv.1, revive kv.2))
  | [] => rfl
  | (k, v) :: fs => by rw [reviveFields, List.map_cons, reviveFields_eq_map fs]

theorem revive_jnum (n : Nat) : revive (.jnum n) = .jnum n := rfl

theorem revive_jstr (s : String) : revive (.jstr s) = .jstr s := rfl

theorem bufferReviver_jarr (xs : List JVal) : bufferReviver (.jarr xs) = .jarr xs := rfl

theorem revive_jarr (xs : List JVal) : revive (.jarr xs) = .jarr (reviveList xs) := rfl

theorem revive_bufToJson (b : List Nat) (hb : ∀ x ∈ b, x < 256) :
    revive (bufToJson b) = .jbuf b := by
  have hlist : reviveList (b.map .jnum) = b.map .jnum := by
    rw [reviveList_eq_map, List.map_map]
    exact List.map_congr_left fun x _ => revive_jnum x
  have hfields : reviveFields [("type", JVal.jstr "Buffer"), ("data", .jarr (b.map .jnum))] =
      [("type", JVal.jstr "Buffer"), ("data", .jarr (b.map .jnum))] := by
    rw [reviveFields, reviveFields, reviveFields, revive_jstr, revive_jarr, hlist]
  have ht : field? "type" [("type", JVal.jstr "Buffer"), ("data", .jarr (b.map .jnum))] =
      some (.jstr "Buffer") := by
    rw [field?, if_pos rfl]
  have hd : field? "data" [("type", JVal.jstr "Buffer"), ("data", .jarr (b.map .jnum))] =
      some (.jarr (b.map .jnum)) := by
    rw [field?, if_neg (by decide), field?, if_pos rfl]
  have hbytes : (b.map JVal.jnum).map jvalToByte = b := by
    rw [List.map_map]
    have hpt : ∀ x ∈ b, (jvalToByte ∘ JVal.jnum) x = id x := fun x hx => by
      show x % 256 = x
      exact Nat.mod_eq_of_lt (hb x hx)
    rw [List.map_congr_left hpt, List.map_id]
  show bufferReviver (.jobj (reviveFields
    [("type", JVal.jstr "Buffer"), ("data", .jarr (b.map .jnum))])) = JVal.jbuf b
  rw [hfields, bufferReviver, ht, hd]
  show (if "Buffer" = "Buffer" then JVal.jbuf ((b.map JVal.jnum).map jvalToByte)
      else .jobj _) = _
  rw [if_pos rfl, hbytes]

theorem field?_mem (k : String) :
    ∀ (fs : List (String × JVal)) (v : JVal), field? k fs = some v → (k, v) ∈ fs := by
  intro fs
  induction fs with
  | nil => intro v h; simp [field?] at h
  | cons kv rest ih =>
      intro v h
      obtain ⟨k', v'⟩ := kv
      by_cases hk : k' = k
      · subst hk
        rw [field?, if_pos rfl] at h
        cases h
        exact List.mem_cons_self _ _
      · rw [field?, if_neg hk] at h
        exact List.mem_cons_of_mem _ (ih v h)

theorem bufferReviver_not_shaped (v : JVal) (hv : ¬ bufShaped v) : bufferReviver v = v := by
  cases v with
  | jobj fields =>
      rw [bufferReviver]
      split
      · next t xs ht hd =>
          rw [if_neg]
          intro hbuf
          subst hbuf
          exact hv ⟨fields, xs, rfl, ht, hd⟩
      · rfl
  | jnull => rfl
  | jbool b => rfl
  | jnum n => rfl
  | jstr s => rfl
  | jarr xs => rfl
  | jbuf b => rfl

theorem bufferReviver_allArr (fields : List (String × JVal))
    (hf : ∀ kv ∈ fields, ∃ xs, kv.2 = JVal.jarr xs) :
    bufferReviver (.jobj fields) = .jobj fields := by
  apply bufferReviver_not_shaped
  rintro ⟨fields', xs, heq, ht, hd⟩
  cases heq
  obtain ⟨xs', hxs'⟩ := hf ("type", .jstr "Buffer") (field?_mem _ _ _ ht)
  cases hxs'

theorem treeRevivedAux_allArr :
    ∀ (t : List (List (List Nat))) (i : Nat) kv, kv ∈ treeRevivedAux i t →
      ∃ xs, kv.2 = JVal.jarr xs := by
  intro t
  induction t with
  | nil => intro i kv h; simp [treeRevivedAux] at h
  | cons lvl rest ih =>
      intro i kv h
      rw [treeRevivedAux, List.mem_cons] at h
      rcases h with rfl | h
      · exact ⟨_, rfl⟩
      · exact ih (i + 1) kv h

theorem reviveFields_treeFields (t : List (List (List Nat)))
    (hb : ∀ lvl ∈ t, ∀ b ∈ lvl, ∀ x ∈ b, x < 256) :
    ∀ i, reviveFields (treeFieldsAux i t) = treeRevivedAux i t := by
  induction t with
  | nil => intro i; rfl
  | cons lvl rest ih =>
      intro i
      rw [treeFieldsAux, reviveFields, treeRevivedAux, revive_jarr, reviveList_eq_map,
          List.map_map]
      have hmap : lvl.map (revive ∘ bufToJson) = lvl.map .jbuf :=
        List.map_congr_left fun b hbmem =>
          revive_bufToJson b (hb lvl (List.mem_cons_self _ _) b hbmem)
      rw [hmap, ih (fun l hl => hb l (List.mem_cons_of_mem _ hl)) (i + 1)]

/-- C10: saving a tree object whose every node is a byte buffer as a
snapshot and restoring it round-trips: the restored level map equals the
original with every serialized buffer value (an object with `type`
`"Buffer"` and an array `data` field) reconstructed into a buffer of
exactly those bytes, and the reviver returns every non-buffer-shaped value
unchanged. -/
theorem snapshot_roundtrip (t : List (List (List Nat)))
    (hb : ∀ lvl ∈ t, ∀ b ∈ lvl, ∀ x ∈ b, x < 256) :
    restoreTree (saveTreeSnapshot t) = treeRevived t ∧
    ∀ v : JVal, ¬ bufShaped v → bufferReviver v = v := by
  refine ⟨?_, bufferReviver_not_shaped⟩
  show revive (treeToJson t) = treeRevived t
  rw [treeToJson, revive, reviveFields_treeFields t hb 0, treeRevived]
  exact bufferReviver_allArr _ (treeRevivedAux_allArr t 0)

theorem get?_eq_some_getD {α : Type} (l : List α) (d : α) (k : Nat) (h : k < l.length) :
    l.get? k = some (l.getD k d) := by
  cases hg : l.get? k with
  | none => rw [List.get?_eq_none] at hg; omega
  | some v => simp [List.getD, ← List.get?_eq_getElem?, hg]

theorem buildLevelsAux_length (c : Bytes → Bytes → Bytes) (zhs : List Bytes) :
    ∀ (n lvl : Nat) (cur : List (Option Bytes)),
      (buildLevelsAux c zhs n lvl cur).length = n + 1
  | 0, _, _ => rfl
  | n + 1, lvl, cur => by
      simp [buildLevelsAux, buildLevelsAux_length c zhs n]

theorem shiftIter_shift (c : Bytes → Bytes → Bytes) (zhs : List Bytes) :
    ∀ (k lvl : Nat) (cur : List (Option Bytes)),
      shiftIter c zhs (lvl + 1) (buildLevel c (zhs.get? lvl) cur) k =
        shiftIter c zhs lvl cur (k + 1)
  | 0, _, _ => rfl
  | k + 1, lvl, cur => by
      rw [shiftIter, shiftIter_shift c zhs k lvl cur,
          show lvl + 1 + k = lvl + (k + 1) by omega]
      rfl

theorem buildLevelsAux_getD (c : Bytes → Bytes → Bytes) (zhs : List Bytes) :
    ∀ (n : Nat) (k lvl : Nat) (cur : List (Option Bytes)), k ≤ n →
      (buildLevelsAux c zhs n lvl cur).getD k [] = shiftIter c zhs lvl cur k
  | 0, 0, _, _, _ => rfl
  | n + 1, 0, _, _, _ => rfl
  | 0, k + 1, _, _, h => absurd h (by omega)
  | n + 1, k + 1, lvl, cur, h => by
      show (buildLevelsAux c zhs n (lvl + 1) (buildLevel c (zhs.get? lvl) cur)).getD k [] = _
      rw [buildLevelsAux_getD c zhs n k (lvl + 1) _ (by omega), shiftIter_shift]

theorem buildLevel_map_some (c : Bytes → Bytes → Bytes) (z : Bytes) :
    ∀ l : List Bytes, buildLevel c (some z) (l.map some) = (dBuildLevel c z l).map some
  | [] => rfl
  | [_] => rfl
  | a :: b :: rest => by
      show compressO c (some a) (some b) :: buildLevel c (some z) (rest.map some) = _
      rw [buildLevel_map_some c z rest]
      rfl

theorem shiftIter_map_some (c : Bytes → Bytes → Bytes) (zt : List Bytes) :
    ∀ (k lvl : Nat) (cur : List Bytes), lvl + k ≤ zt.length →
      shiftIter c zt lvl (cur.map some) k = (dShift c zt lvl cur k).map some
  | 0, _, _, _ => rfl
  | k + 1, lvl, cur, h => by
      rw [shiftIter, shiftIter_map_some c zt k lvl cur (by omega),
          get?_eq_some_getD zt [] (lvl + k) (by omega)]
      exact buildLevel_map_some c _ _

theorem pairUp_length (c : Bytes → Bytes → Bytes) :
    ∀ l : List Bytes, (pairUp c l).length = (l.length + 1) / 2
  | [] => rfl
  | [_] => by simp [pairUp]
  | _ :: _ :: rest => by
      simp [pairUp, pairUp_length c rest]
      omega

theorem pairUp_replicate_even (c : Bytes → Bytes → Bytes) (z : Bytes) :
    ∀ j : Nat, pairUp c (List.replicate (2 * j) z) = List.replicate j (c z z)
  | 0 => rfl
  | j + 1 => by
      rw [show 2 * (j + 1) = 2 * j + 1 + 1 by omega, List.replicate_succ, List.replicate_succ,
          pairUp, pairUp_replicate_even c z j, List.replicate_succ]

theorem dBuildLevel_ne_nil (c : Bytes → Bytes → Bytes) (z : Bytes) :
    ∀ l : List Bytes, l ≠ [] → dBuildLevel c z l ≠ []
  | [], h => absurd rfl h
  | [a], _ => by simp [dBuildLevel]
  | a :: b :: rest, _ => by simp [dBuildLevel]

theorem pairUp_append_replicate (c : Bytes → Bytes → Bytes) (z : Bytes) :
    ∀ (l : List Bytes) (m : Nat), (l.length + m) % 2 = 0 →
      pairUp c (l ++ List.replicate m z) = dBuildLevel c z l ++ List.replicate (m / 2) (c z z)
  | [], m, hm => by
      obtain ⟨j, rfl⟩ : ∃ j, m = 2 * j := ⟨m / 2, by simp at hm; omega⟩
      rw [List.nil_append, pairUp_replicate_even c z j, dBuildLevel, List.nil_append,
          Nat.mul_div_cancel_left j (by omega)]
  | [a], m, hm => by
      obtain ⟨j, rfl⟩ : ∃ j, m = 2 * j + 1 := ⟨m / 2, by simp at hm; omega⟩
      show pairUp c (a :: List.replicate (2 * j + 1) z) =
        [c a z] ++ List.replicate ((2 * j + 1) / 2) (c z z)
      rw [List.replicate_succ]
      show c a z :: pairUp c (List.replicate (2 * j) z) = _
      rw [pairUp_replicate_even c z j, show (2 * j + 1) / 2 = j by omega]
      rfl
  | a :: b :: rest, m, hm => by
      show c a b :: pairUp c (rest ++ List.replicate m z) =
        (c a b :: dBuildLevel c z rest) ++ List.replicate (m / 2) (c z z)
      rw [pairUp_append_replicate c z rest m
        (by simp only [List.length_cons] at hm; omega)]
      rfl

theorem createZeroHashes_getD_eq (hash : Bytes → Bytes) (c : Bytes → Bytes → Bytes)
    (depth k : Nat) (hk : k ≤ depth) :
    (createZeroHashes hash c depth).getD k [] = selfIter c (hash zeroLeaf) k :=
  createZeroHashesAux_getD c depth k _ hk

/-- The padding invariant: below the populated frontier the spec's
zero-padded reference level equals the dense code level, and beyond it the
reference level is a run of the level's zero hash. -/
theorem ref_eq_dense_padded (hash : Bytes → Bytes) (c : Bytes → Bytes → Bytes)
    (depth : Nat) (leaves : List Bytes)
    (hne : leaves ≠ []) (hlen : leaves.length ≤ 2 ^ depth) :
    ∀ k, k ≤ depth → ∃ M,
      refLevel hash c depth leaves k =
        dShift c (createZeroHashes hash c depth) 0 (leaves.map hash) k ++
          List.replicate M (selfIter c (hash zeroLeaf) k) ∧
      1 ≤ (dShift c (createZeroHashes hash c depth) 0 (leaves.map hash) k).length ∧
      (refLevel hash c depth leaves k).length = 2 ^ (depth - k) := by
  intro k
  induction k with
  | zero =>
      intro _
      refine ⟨2 ^ depth - leaves.length, ?_, ?_, ?_⟩
      · show (leaves ++ List.replicate (2 ^ depth - leaves.length) zeroLeaf).map hash =
          leaves.map hash ++ List.replicate (2 ^ depth - leaves.length) (hash zeroLeaf)
        rw [List.map_append, List.map_replicate]
      · show 1 ≤ (leaves.map hash).length
        rw [List.length_map]
        exact List.length_pos.mpr hne
      · show ((leaves ++ List.replicate (2 ^ depth - leaves.length) zeroLeaf).map hash).length
          = 2 ^ depth
        rw [List.length_map, List.length_append, List.length_replicate]
        omega
  | succ k ih =>
      intro hk1
      obtain ⟨M, href, hpos, hreflen⟩ := ih (by omega)
      have hk : k < depth := by omega
      have heven : (2 : Nat) ^ (depth - k) % 2 = 0 := by
        rw [show depth - k = (depth - (k + 1)) + 1 by omega, pow_succ]
        exact Nat.mul_mod_left _ 2
      have hsum : (dShift c (createZeroHashes hash c depth) 0 (leaves.map hash) k).length + M
          = 2 ^ (depth - k) := by
        rw [← hreflen, href, List.length_append, List.length_replicate]
      refine ⟨M / 2, ?_, ?_, ?_⟩
      · show pairUp c (refLevel hash c depth leaves k) = _
        rw [href, pairUp_append_replicate c _ _ M (by omega)]
        have hz : (createZeroHashes hash c depth).getD (0 + k) [] =
            selfIter c (hash zeroLeaf) k := by
          rw [Nat.zero_add]
          exact createZeroHashes_getD_eq hash c depth k (le_of_lt hk)
        rw [show dShift c (createZeroHashes hash c depth) 0 (leaves.map hash) (k + 1) =
          dBuildLevel c ((createZeroHashes hash c depth).getD (0 + k) [])
            (dShift c (createZeroHashes hash c depth) 0 (leaves.map hash) k) from rfl, hz]
        rfl
      · have hnil : dShift c (createZeroHashes hash c depth) 0 (leaves.map hash) k ≠ [] := by
          intro h
          rw [h] at hpos
          simp at hpos
        have h2 := dBuildLevel_ne_nil c
          ((createZeroHashes hash c depth).getD (0 + k) []) _ hnil
        exact List.length_pos.mpr h2
      · show (pairUp c (refLevel hash c depth leaves k)).length = _
        rw [pairUp_length, hreflen,
            show depth - k = (depth - (k + 1)) + 1 by omega, pow_succ]
        omega

/-- C2 counterexample: for the empty leaf sequence the materializer does
not reproduce the reference materialization over zero-padded leaves: the
`leaves.length ? this.leaves : this.zeroHashes` fallback substitutes the
zero-hash table itself for the leaf array, and the resulting root differs
from the reference (all-zero tree) root. -/
theorem empty_leaves_materializer_differs_from_reference :
    rootOfLevels 1
        (createTreeLevels toyHash toyCompress 1 (createZeroHashes toyHash toyCompress 1) [])
      ≠ some (refRoot toyHash toyCompress 1 []) := by
  decide

/-- C2 (amended): for every nonempty leaf sequence that fits the tree, the
materializer (`createTreeObject`) substitutes `zeroHashes[level]` — never
an empty-bytes placeholder — for a missing right child, and consequently
each of its levels is exactly the populated prefix of the corresponding
level of the spec's reference Merkle materialization over zero-padded
leaves (the remainder of each reference level being a run of that level's
zero hash), with the materializer's level-`depth` node equal to the
reference root. -/
theorem materializer_matches_zero_padded_reference
    (hash : Bytes → Bytes) (c : Bytes → Bytes → Bytes) (depth : Nat) (leaves : List Bytes)
    (_hd : 1 ≤ depth) (hne : leaves ≠ []) (hlen : leaves.length ≤ 2 ^ depth) :
    (∀ k, k ≤ depth → ∃ M,
      (refLevel hash c depth leaves k).map some =
        (createTreeLevels hash c depth (createZeroHashes hash c depth)
            (leaves.map some)).getD k [] ++
          List.replicate M (some ((createZeroHashes hash c depth).getD k []))) ∧
    rootOfLevels depth
        (createTreeLevels hash c depth (createZeroHashes hash c depth) (leaves.map some)) =
      some (refRoot hash c depth leaves) := by
  have hztlen : (createZeroHashes hash c depth).length = depth + 1 :=
    createZeroHashesAux_length c depth _
  have hne' : ¬ (leaves.map some).length = 0 := by
    rw [List.length_map, List.length_eq_zero]
    exact hne
  have hunfold : createTreeLevels hash c depth (createZeroHashes hash c depth)
      (leaves.map some) =
      buildLevelsAux c (createZeroHashes hash c depth) depth 0
        ((leaves.map some).map (Option.map hash)) := by
    simp only [createTreeLevels]
    rw [if_neg hne']
  have hl0 : (leaves.map some).map (Option.map hash) = (leaves.map hash).map some := by
    rw [List.map_map, List.map_map]
    rfl
  have hlevels : ∀ k, k ≤ depth →
      (createTreeLevels hash c depth (createZeroHashes hash c depth)
        (leaves.map some)).getD k [] =
      (dShift c (createZeroHashes hash c depth) 0 (leaves.map hash) k).map some := by
    intro k hk
    rw [hunfold, hl0, buildLevelsAux_getD c _ depth k 0 _ hk,
        shiftIter_map_some c _ k 0 _ (by omega)]
  constructor
  · intro k hk
    obtain ⟨M, href, _, _⟩ := ref_eq_dense_padded hash c depth leaves hne hlen k hk
    refine ⟨M, ?_⟩
    rw [href, List.map_append, List.map_replicate, hlevels k hk,
        createZeroHashes_getD_eq hash c depth k hk]
  · obtain ⟨M, href, hpos, hlen2⟩ := ref_eq_dense_padded hash c depth leaves hne hlen depth
      le_rfl
    have h1 : (refLevel hash c depth leaves depth).length = 1 := by
      rw [hlen2]
      simp
    have hsum : (dShift c (createZeroHashes hash c depth) 0 (leaves.map hash) depth).length + M
        = 1 := by
      rw [← h1, href, List.length_append, List.length_replicate]
    obtain ⟨r, hr⟩ := List.length_eq_one.mp
      (show (dShift c (createZeroHashes hash c depth) 0 (leaves.map hash) depth).length = 1
        by omega)
    have hrefl : refLevel hash c depth leaves depth = [r] := by
      rw [href, hr, show M = 0 by omega]
      rfl
    have hlvlen : (createTreeLevels hash c depth (createZeroHashes hash c depth)
        (leaves.map some)).length = depth + 1 := by
      rw [hunfold]
      exact buildLevelsAux_length c _ depth 0 _
    rw [rootOfLevels, get?_eq_some_getD _ [] depth (by omega), hlevels depth le_rfl, hr]
    show some r = some (refRoot hash c depth leaves)
    rw [refRoot, hrefl]
    rfl

/-- Witness for C2: depth 2 with three 64-byte leaves over the toy
hasher. -/
theorem materializer_matches_reference_witness :
    rootOfLevels 2
        (createTreeLevels toyHash toyCompress 2 (createZeroHashes toyHash toyCompress 2)
          ([List.replicate 64 7, List.replicate 64 9, List.replicate 64 1].map some)) =
      some (refRoot toyHash toyCompress 2
        [List.replicate 64 7, List.replicate 64 9, List.replicate 64 1]) :=
  (materializer_matches_zero_padded_reference toyHash toyCompress 2
    [List.replicate 64 7, List.replicate 64 9, List.replicate 64 1]
    (by decide) (by decide) (by decide)).2

/-- Witness for C10: a two-level tree of small concrete buffers. -/
theorem snapshot_roundtrip_witness :
    restoreTree (saveTreeSnapshot [[[1, 2], [3]], [[255]]]) =
      treeRevived [[[1, 2], [3]], [[255]]] :=
  (snapshot_roundtrip [[[1, 2], [3]], [[255]]] (by decide)).1

end MerkleSpec

